import Mathlib

/-!
Verification of the `search_data_catalog` tool
(`src/api/libs/agents/src/tools/categories/file_tools/search_data_catalog.rs`).

The Rust source is shallowly embedded: pure helpers become Lean functions,
external-provider calls (embedding, value index, rerank, LLM completion,
dataset fetch) become explicit outcome parameters of type `Except`/`Option`,
and the semi-structured YAML documents are modelled by a typed tree that
mirrors exactly the fields the source reads and writes.  Rust `HashMap`s are
modelled by association lists in insertion order (Rust iteration order is
unspecified; where a settled property could depend on that choice it is noted
at the theorem).  Rust `HashSet` deduplication is modelled keeping the first
occurrence.  Machine integers do not matter here: all counts are small `Nat`s.
-/

namespace SearchDataCatalog


/-! ### Generic list helpers -/

/-- Predicate `leadsWith s p`: holds when the pattern `p` is an initial segment of `s`
(the initial-segment check underlying Rust `str::contains`). -/
def leadsWith : List Char → List Char → Bool
  | _, [] => true
  | [], _ :: _ => false
  | a :: as, b :: bs => a == b && leadsWith as bs

/-- Predicate `containsSub s p`: holds when `p` occurs contiguously inside `s`
(model of Rust `str::contains` on the underlying character sequences). -/
def containsSub : List Char → List Char → Bool
  | [], pat => pat.isEmpty
  | a :: as, pat => leadsWith (a :: as) pat || containsSub as pat

/-- String-level wrapper for `containsSub`. -/
def strContains (s pat : String) : Bool :=
  containsSub s.data pat.data

/-- First-occurrence deduplication by a key, with an explicit `seen` set.
Models the Rust pattern of pushing an element only when inserting its key
into a `HashSet` succeeds (first occurrence wins). -/
def dedupKeyedAux {α β : Type} [DecidableEq β] (key : α → β) :
    List α → List β → List α
  | [], _ => []
  | a :: rest, seen =>
    if key a ∈ seen then dedupKeyedAux key rest seen
    else a :: dedupKeyedAux key rest (key a :: seen)

/-! ### Term Sanitizer (`is_time_period_term` and the filter in `execute`) -/

/-- The fixed time-period lexicon from `is_time_period_term` (source lines
145-154), verbatim. -/
def time_terms : List String :=
  ["today", "yesterday", "tomorrow",
   "last week", "last month", "last year", "last quarter",
   "this week", "this month", "this year", "this quarter",
   "next week", "next month", "next year", "next quarter",
   "q1", "q2", "q3", "q4",
   "january", "february", "march", "april", "may", "june",
   "july", "august", "september", "october", "november", "december",
   "jan", "feb", "mar", "apr", "jun", "jul", "aug", "sep", "oct", "nov", "dec"]

/-- Rust `str::len`: the number of bytes in the UTF-8 encoding (not the number
of characters).  This matters for the Term Sanitizer's `term.len() >= 2`
check on non-ASCII terms. -/
def rustLen (s : String) : Nat :=
  s.data.foldl (fun n c => n + c.utf8Size) 0

/-- Function `is_time_period_term` (source lines 141-157): lowercase the term
and test whether any lexicon entry occurs as a substring.  Rust
`str::to_lowercase` is the full Unicode case mapping (it maps, for example,
U+212A KELVIN SIGN to the ASCII letter `k`); it is a standard-library
primitive and is not reimplemented here — like the other library
collaborators it is passed in explicitly, as the `lower` parameter. -/
def is_time_period_term (lower : String → String) (term : String) : Bool :=
  time_terms.any fun t => containsSub (lower term).data t.data

/-- The term filter applied in `execute` (source lines 445-448):
`term.len() >= 2 && !is_time_period_term(term)`. -/
def sanitizeTerms (lower : String → String) (terms : List String) : List String :=
  terms.filter fun term =>
    decide (2 ≤ rustLen term) && !is_time_period_term lower term

/-- Per-character ASCII lowercasing.  It agrees with Rust
`str::to_lowercase` on every string whose characters are ASCII or already
lowercase (in particular on the concrete terms used below); it serves only
to instantiate the `lower` parameter at such inputs. -/
def asciiLower (s : String) : String :=
  String.mk (s.data.map Char.toLower)

/-! ### Data model (source lines 34-85 and 43-72)

`Uuid` is modelled as `Nat`; only identity (equality) of UUIDs matters to the
pipeline, and UUID parsing enters only through the explicit `parseId`
parameter of the LLM-filter stage. -/

abbrev Uuid := Nat

/-- Struct `FoundValueInfo` (source lines 34-41). -/
structure FoundValueInfo where
  value : String
  database_name : String
  schema_name : String
  table_name : String
  column_name : String
deriving DecidableEq

/-- The fields of `PermissionedDataset` the tool reads: `id`, `name`,
`yml_content`, `data_source_id`. -/
structure PermissionedDataset where
  id : Uuid
  name : String
  yml_content : Option String
  data_source_id : Uuid
deriving DecidableEq

/-- Struct `RankedDataset` (source lines 74-77). -/
structure RankedDataset where
  dataset : PermissionedDataset
deriving DecidableEq

/-- Struct `DatasetResult` (source lines 67-72). -/
structure DatasetResult where
  id : Uuid
  name : Option String
  yml_content : Option String
deriving DecidableEq

/-- Struct `DatasetSearchResult` (source lines 60-65). -/
structure DatasetSearchResult where
  id : Uuid
  name : Option String
  yml_content : Option String
deriving DecidableEq

/-- Struct `SearchDataCatalogParams` (source lines 43-48). -/
structure SearchDataCatalogParams where
  specific_queries : Option (List String)
  exploratory_topics : Option (List String)
  value_search_terms : Option (List String)
deriving DecidableEq

/-- Struct `SearchDataCatalogOutput` (source lines 50-58).  The wall-clock
`duration` field is a timing side channel and is not modelled. -/
structure SearchDataCatalogOutput where
  message : String
  specific_queries : Option (List String)
  exploratory_topics : Option (List String)
  results : List DatasetSearchResult
  data_source_id : Option Uuid
deriving DecidableEq

/-- Field-wise conversion from `DatasetResult` to `DatasetSearchResult`
(source lines 721-728). -/
def toSearchResult (r : DatasetResult) : DatasetSearchResult :=
  ⟨r.id, r.name, r.yml_content⟩

/-! ### Relevance Ranker (`rerank_datasets`, source lines 878-923)

The single Cohere call is abstracted into the `resp` parameter: `.error e`
for a failed provider call, `.ok idxs` for the positional indices the
provider returned.  An index is mapped back through `all_datasets.get(i)`;
out-of-range indices are dropped (and logged). -/

/-- Mapping one returned index back to a dataset (source lines 904-918):
`all_datasets.get(result.index)` keeps in-range indices and drops (and logs)
out-of-range ones. -/
def rerankStep (all_datasets : List PermissionedDataset) (i : Nat) :
    Option RankedDataset :=
  (all_datasets[i]?).map fun d => RankedDataset.mk d

def rerank_datasets (all_datasets : List PermissionedDataset)
    (documents : List String) (resp : Except String (List Nat)) :
    Except String (List RankedDataset) :=
  if documents.isEmpty || all_datasets.isEmpty then Except.ok []
  else
    match resp with
    | Except.error e => Except.error ("Cohere rerank failed: " ++ e)
    | Except.ok idxs => Except.ok (idxs.filterMap (rerankStep all_datasets))

/-! ### Evidence-Grounded Filter (`llm_filter_helper`, source lines 925-1065)

The provider call, the extraction of the assistant message content, and the
JSON parse of `LLMFilterResponse` are together abstracted into the `resp`
parameter: `.error e` when any of them fails, `.ok ids` for the parsed list
of identity strings.  `parseId` abstracts `Uuid::parse_str`. -/

/-- The `dataset_map` lookup (source lines 1027-1030): a `HashMap` collected
from `(id, dataset)` pairs, so for duplicate ids the last pair wins. -/
def lookupRanked (ranked : List RankedDataset) (pid : Uuid) :
    Option PermissionedDataset :=
  (ranked.reverse.find? fun r => r.dataset.id == pid).map fun r => r.dataset

/-- Processing of one returned identity string (source lines 1035-1055):
parse it as an identity (drop on failure), look it up in the ranked set
(drop when absent), and convert the hit to a `DatasetResult`. -/
def llmIdStep (parseId : String → Option Uuid) (ranked : List RankedDataset)
    (s : String) : Option DatasetResult :=
  match parseId s with
  | some pid =>
      (lookupRanked ranked pid).map fun d =>
        DatasetResult.mk d.id (some d.name) d.yml_content
  | none => none

/-- Response post-processing (source lines 1032-1056). -/
def processLLMIds (parseId : String → Option Uuid)
    (ranked : List RankedDataset) (ids : List String) : List DatasetResult :=
  ids.filterMap (llmIdStep parseId ranked)

/-- Function `llm_filter_helper` (source lines 925-1065): empty ranked list
short-circuits to `Ok([])` before any provider call; a provider/parse
failure is propagated as an error. -/
def llm_filter_helper (parseId : String → Option Uuid)
    (ranked : List RankedDataset) (resp : Except String (List String)) :
    Except String (List DatasetResult) :=
  if ranked.isEmpty then Except.ok []
  else
    match resp with
    | Except.error e => Except.error e
    | Except.ok ids => Except.ok (processLLMIds parseId ranked ids)

/-- The per-query/topic closure in `execute` (source lines 644-681): an empty
ranked list returns `Ok(vec![])`, and an error from the filter helper is
caught and degraded to `Ok(vec![])` for that query/topic alone. -/
def filterQueryTask (parseId : String → Option Uuid)
    (ranked : List RankedDataset) (resp : Except String (List String)) :
    Except String (List DatasetResult) :=
  if ranked.isEmpty then Except.ok []
  else
    match llm_filter_helper parseId ranked resp with
    | Except.ok l => Except.ok l
    | Except.error _ => Except.ok []

/-- The filter fan-out: one independent task per query/topic (source lines
637-681); each task's outcome depends only on its own ranked list and
provider response. -/
def collectFilterStage (parseId : String → Option Uuid)
    (tasks : List (List RankedDataset × Except String (List String))) :
    List (Except String (List DatasetResult)) :=
  tasks.map fun t => filterQueryTask parseId t.1 t.2

/-! ### Result Merger (source lines 687-728)

The two sequential loops push each dataset whose id enters the shared
`unique_ids` set for the first time, specific-query results first.  The
closures of the filter stage always return `Ok`, so the `Err` arms of the
two loops are unreachable and the loops amount to a first-occurrence
deduplication of the concatenated lists. -/

def combineResults (specificVecs exploratoryVecs : List (List DatasetResult)) :
    List DatasetResult :=
  dedupKeyedAux (fun d => d.id) (specificVecs.flatten ++ exploratoryVecs.flatten) []

/-- The merged output as a function of per-query filtered lists and of the
completion orders `arrS`/`arrE` in which the `buffer_unordered(10)` streams
delivered them (source lines 582-634 and 637-685): each group's vector is
collected in completion order, a permutation of the submitted order. -/
def pipelineMerged (fS fE : String → List DatasetResult)
    (arrS arrE : List String) : List DatasetResult :=
  combineResults (arrS.map fS) (arrE.map fE)

/-! ### Early returns of `execute` (source lines 358-386) -/

/-- The empty-catalog message (source line 379), verbatim. -/
def noDatasetsMessage : String :=
  "No datasets available to search. Have you deployed datasets? If you believe this is an error, please contact support."

/-- The head of `execute` (source lines 358-386): the dataset-fetch outcome
decides whether the invocation returns early (`some` output) or the pipeline
continues (`none`).  Both early returns are `Ok` responses, never errors. -/
def executeHead (params : SearchDataCatalogParams)
    (fetch : Except String (List PermissionedDataset)) :
    Option SearchDataCatalogOutput :=
  match fetch with
  | Except.error e =>
      some { message := "Error fetching datasets: " ++ e
             specific_queries := params.specific_queries
             exploratory_topics := params.exploratory_topics
             results := []
             data_source_id := none }
  | Except.ok ds =>
      if ds.isEmpty then
        some { message := noDatasetsMessage
               specific_queries := params.specific_queries
               exploratory_topics := params.exploratory_topics
               results := []
               data_source_id := none }
      else none

/-! ### The semantic YAML document model (section 4.7 of the design)

The source walks a `serde_yaml::Value` tree by string keys; a missing key
yields `Null`, whose `as_str`/`as_bool`/`as_sequence` accessors yield `None`.
The typed tree below carries exactly the fields the source reads and writes,
each as an `Option` so that absent keys behave as in the source. -/

/-- A `models[].dimensions[]` node: the source reads `name`, `expr`,
`searchable` and writes `relevant_values`. -/
structure DimensionNode where
  name : Option String
  expr : Option String
  searchable : Option Bool
  relevant_values : Option (List String)
deriving DecidableEq

/-- A `models[].measures[]` node: the source reads `name` and `expr`. -/
structure MeasureNode where
  name : Option String
  expr : Option String
deriving DecidableEq

/-- A `models[].metrics[]` node: the source reads `name`. -/
structure MetricNode where
  name : Option String
deriving DecidableEq

/-- A `models[]` node: the source reads `name`, `database`, `schema`,
`dimensions`, `measures`, `metrics`. -/
structure ModelNode where
  name : Option String
  database : Option String
  schema : Option String
  dimensions : Option (List DimensionNode)
  measures : Option (List MeasureNode)
  metrics : Option (List MetricNode)
deriving DecidableEq

/-- A parsed semantic document: the source reads the top-level `models`
sequence. -/
structure CatalogDoc where
  models : Option (List ModelNode)
deriving DecidableEq

/-- Struct `SearchableDimension` (source lines 79-85). -/
structure SearchableDimension where
  model_name : String
  dimension_name : String
  dimension_path : List String
deriving DecidableEq

/-- The per-dimension part of `extract_searchable_dimensions` (source lines
1175-1186): keep dimensions carrying `searchable: true`, with the source's
defaults for missing names. -/
def searchStep (m : ModelNode) (d : DimensionNode) : Option SearchableDimension :=
  if d.searchable == some true then
    some { model_name := m.name.getD "unknown_model"
           dimension_name := d.name.getD "unknown_dimension"
           dimension_path :=
             ["models", m.name.getD "unknown_model", "dimensions",
              d.name.getD "unknown_dimension"] }
  else none

/-- The per-model part of `extract_searchable_dimensions` (source lines
1169-1189). -/
def searchablesOfModel (m : ModelNode) : List SearchableDimension :=
  match m.dimensions with
  | none => []
  | some dims => dims.filterMap (searchStep m)

/-- Function `extract_searchable_dimensions` (source lines 1161-1193), on a parsed
document.  Parsing itself cannot fail here; the fallible text-level entry
point is `inject_prefound_values_into_yml`. -/
def extract_searchable_dimensions (doc : CatalogDoc) : List SearchableDimension :=
  match doc.models with
  | none => []
  | some ms => ms.flatMap searchablesOfModel

/-- Column names contributed by one dimension (source lines 1222-1235):
the name, plus the expression when present and distinct from the name. -/
def dimensionColumns (d : DimensionNode) : List String :=
  match d.name with
  | none => []
  | some n =>
      n :: (match d.expr with
            | some e => if e = n then [] else [e]
            | none => [])

/-- Column names contributed by one measure (source lines 1238-1251). -/
def measureColumns (m : MeasureNode) : List String :=
  match m.name with
  | none => []
  | some n =>
      n :: (match m.expr with
            | some e => if e = n then [] else [e]
            | none => [])

/-- Column names contributed by one metric (source lines 1254-1260). -/
def metricColumns (m : MetricNode) : List String :=
  match m.name with
  | none => []
  | some n => [n]

/-- All column-bearing names of a model (source lines 1219-1260). -/
def modelColumns (m : ModelNode) : List String :=
  (m.dimensions.getD []).flatMap dimensionColumns ++
    (m.measures.getD []).flatMap measureColumns ++
    (m.metrics.getD []).flatMap metricColumns

/-- Association-list insert with overwrite, modelling `HashMap::insert`. -/
def alistInsert {α : Type} (k : String) (v : α) :
    List (String × α) → List (String × α)
  | [] => [(k, v)]
  | (k', v') :: rest =>
      if k = k' then (k, v) :: rest else (k', v') :: alistInsert k v rest

/-- Association-list lookup, modelling `HashMap::get`/`contains_key`. -/
def alistGet {α : Type} (k : String) : List (String × α) → Option α
  | [] => none
  | (k', v) :: rest => if k = k' then some v else alistGet k rest

/-- Model of `entry(k).or_insert(dflt)` followed by an update of the entry. -/
def alistModify {α : Type} (k : String) (dflt : α) (f : α → α) :
    List (String × α) → List (String × α)
  | [] => [(k, f dflt)]
  | (k', v) :: rest =>
      if k = k' then (k', f v) :: rest else (k', v) :: alistModify k dflt f rest

/-- Maps `database -> schema -> table -> columns`, the structure built by
`extract_database_info_from_yaml`.  Rust uses nested `HashMap`s whose
iteration order is unspecified; the association lists fix insertion order. -/
abbrev TableMap := List (String × List String)

abbrev SchemaMap := List (String × TableMap)

abbrev DbMap := List (String × SchemaMap)

/-- The per-model step of `extract_database_info_from_yaml` (source lines
1204-1269), with the source's defaults `"unknown"`, `"public"`,
`"unknown_model"` for missing keys. -/
def dbInfoStep (info : DbMap) (m : ModelNode) : DbMap :=
  alistModify (m.database.getD "unknown") []
    (fun schemas =>
      alistModify (m.schema.getD "public") []
        (fun tables => alistInsert (m.name.getD "unknown_model") (modelColumns m) tables)
        schemas)
    info

/-- Function `extract_database_info_from_yaml` (source lines 1196-1273), on a parsed
document. -/
def extract_database_info_from_yaml (doc : CatalogDoc) : DbMap :=
  match doc.models with
  | none => []
  | some ms => ms.foldl dbInfoStep []

/-- The `model_db_info` scan (source lines 1317-1333): the first
`(database, schema)` pair whose table map contains the model name.  The
Rust scan iterates `HashMap`s in unspecified order; insertion order is fixed
here.  When model names are unique across the document the result is
independent of that choice. -/
def findModelDbInfo (info : DbMap) (modelName : String) :
    Option (String × String) :=
  info.findSome? fun p =>
    p.2.findSome? fun q =>
      if (alistGet modelName q.2).isSome then some (p.1, q.1) else none

/-- The value-selection filter (source lines 1349-1358): the `FoundValueInfo`
entries whose coordinate equals `(db, sch, tbl, col)`, projected to their
value strings. -/
def matchingValues (vals : List FoundValueInfo) (db sch tbl col : String) :
    List String :=
  (vals.filter fun fv =>
      (fv.database_name == db) && (fv.schema_name == sch) &&
        (fv.table_name == tbl) && (fv.column_name == col)).map
    fun fv => fv.value

/-- Model of `relevant_values_for_dim` (source lines 1349-1362): the matching value
strings, deduplicated (Rust collects into a `HashSet`, modelled as
first-occurrence order) and capped at 20. -/
def relevantFor (vals : List FoundValueInfo) (db sch tbl col : String) :
    List String :=
  (dedupKeyedAux (fun v => v) (matchingValues vals db sch tbl col) []).take 20

/-- The per-dimension injection step (source lines 1337-1378): skip nameless
dimensions; inject only when the `(model name, dimension name)` pair occurs
among the searchable dimensions; overwrite `relevant_values` with the
deduplicated, capped matching values only when that list is non-empty. -/
def injectDim (sds : List SearchableDimension) (vals : List FoundValueInfo)
    (db sch modelName : String) (d : DimensionNode) : DimensionNode :=
  match d.name with
  | none => d
  | some dimName =>
      if sds.any fun sd =>
          (sd.model_name == modelName) && (sd.dimension_name == dimName) then
        if (relevantFor vals db sch modelName dimName).isEmpty then d
        else { d with relevant_values := some (relevantFor vals db sch modelName dimName) }
      else d

/-- The per-model injection step (source lines 1309-1381): skip nameless
models and models whose name has no `(database, schema)` entry, otherwise
rewrite each dimension with `injectDim`. -/
def injectModel (info : DbMap) (sds : List SearchableDimension)
    (vals : List FoundValueInfo) (m : ModelNode) : ModelNode :=
  match m.name with
  | none => m
  | some modelName =>
      match findModelDbInfo info modelName with
      | none => m
      | some (db, sch) =>
          match m.dimensions with
          | none => m
          | some dims =>
              { m with dimensions := some (dims.map (injectDim sds vals db sch modelName)) }

/-- The structural core of `inject_prefound_values_into_yml` (source lines
1277-1388) after a successful parse: coordinates are extracted from the
unmodified document, then every model's dimensions are rewritten in place. -/
def inject_core (doc : CatalogDoc) (vals : List FoundValueInfo) : CatalogDoc :=
  match doc.models with
  | none => doc
  | some ms =>
      CatalogDoc.mk
        (some (ms.map
          (injectModel (extract_database_info_from_yaml doc)
            (extract_searchable_dimensions doc) vals)))

/-- A document text together with its parse outcome: `parsed = none` models a
text `serde_yaml::from_str` rejects, `parsed = some doc` a text that parses
to `doc`. -/
structure YmlSrc where
  text : String
  parsed : Option CatalogDoc

/-- Function `inject_prefound_values_into_yml` (source lines 1277-1388) at the text
level.  The first `serde_yaml::from_str` uses `?`, so a parse failure
propagates as an error.  The two later parses (inside
`extract_database_info_from_yaml` and `extract_searchable_dimensions`)
re-parse the same text, so their `Ok(original)` fallback arms are dead code
and do not appear here.  With no searchable dimensions the original text is
returned verbatim; otherwise the rewritten tree is re-serialized
(`serialize` abstracts `serde_yaml::to_string`). -/
def inject_prefound_values_into_yml (serialize : CatalogDoc → String)
    (src : YmlSrc) (vals : List FoundValueInfo) : Except String String :=
  match src.parsed with
  | none => Except.error "Failed to parse dataset YAML for injecting values"
  | some doc =>
      if (extract_searchable_dimensions doc).isEmpty then Except.ok src.text
      else Except.ok (serialize (inject_core doc vals))

/-- The enrichment step at the call site (source lines 734-761): a successful
injection replaces the document, a failed one is logged and the original
text is kept. -/
def enrichStep (serialize : CatalogDoc → String) (src : YmlSrc)
    (vals : List FoundValueInfo) : String :=
  match inject_prefound_values_into_yml serialize src vals with
  | Except.ok u => u
  | Except.error _ => src.text

/-! ### Accessors used to state the dimension-level claims -/

/-- The `i`-th model of a document. -/
def docModel (doc : CatalogDoc) (i : Nat) : Option ModelNode :=
  (doc.models.getD []).get? i

/-- The name of the `i`-th model of a document. -/
def docModelName (doc : CatalogDoc) (i : Nat) : Option String :=
  (docModel doc i).bind fun m => m.name

/-- The `j`-th dimension of the `i`-th model of a document. -/
def docDim (doc : CatalogDoc) (i j : Nat) : Option DimensionNode :=
  (docModel doc i).bind fun m => (m.dimensions.getD []).get? j

/-- A dataset with identity 1 selected by two specific queries and one
exploratory topic, with different names/documents at each occurrence. -/
def s0C1 : List (List DatasetResult) :=
  [[DatasetResult.mk 1 (some "a") (some "docA")],
   [DatasetResult.mk 1 (some "b") (some "docB")]]

def e0C1 : List (List DatasetResult) :=
  [[DatasetResult.mk 1 (some "c") none, DatasetResult.mk 2 (some "d") none]]

/-! ### Claim C5: order of the merged lists -/

/-- Two specific queries selecting distinct datasets. -/
def fSpecC5 : String → List DatasetResult := fun q =>
  if q = "q1" then [DatasetResult.mk 1 none none] else [DatasetResult.mk 2 none none]

def fExplC5 : String → List DatasetResult := fun _ => []

def rdC6 : RankedDataset :=
  RankedDataset.mk (PermissionedDataset.mk 7 "orders" (some "doc") 3)

/-! ### Claim C3: the shape of every injection -/

/-- A document with one model `t` at `(database d, schema s)` carrying two
dimensions both named `c`: the first marked searchable, the second not
marked at all. -/
def exDocC3 : CatalogDoc :=
  CatalogDoc.mk (some [ModelNode.mk (some "t") (some "d") (some "s")
    (some [DimensionNode.mk (some "c") none (some true) none,
           DimensionNode.mk (some "c") none none none]) none none])

def exValsC3 : List FoundValueInfo :=
  [FoundValueInfo.mk "v" "d" "s" "t" "c"]

/-! ## Theorems -/

theorem leadsWith_iff (p : List Char) : ∀ s : List Char,
    leadsWith s p = true ↔ ∃ r, s = p ++ r := by
  induction p with
  | nil =>
    intro s
    constructor
    · intro _
      exact ⟨s, rfl⟩
    · intro _
      cases s <;> rfl
  | cons b bs ih =>
    intro s
    cases s with
    | nil =>
      simp [leadsWith]
    | cons a as =>
      rw [show leadsWith (a :: as) (b :: bs) = (a == b && leadsWith as bs) from rfl]
      rw [Bool.and_eq_true, beq_iff_eq, ih as]
      constructor
      · rintro ⟨rfl, r, rfl⟩
        exact ⟨r, rfl⟩
      · rintro ⟨r, hr⟩
        rw [List.cons_append] at hr
        cases hr
        exact ⟨rfl, r, rfl⟩

theorem containsSub_iff (s p : List Char) :
    containsSub s p = true ↔ ∃ l r, s = l ++ p ++ r := by
  induction s with
  | nil =>
    cases p with
    | nil => simp [containsSub]
    | cons c cs =>
      simp only [containsSub, List.isEmpty]
      constructor
      · intro h
        cases h
      · rintro ⟨l, r, hr⟩
        exact absurd hr.symm (by simp)
  | cons a as ih =>
    rw [show containsSub (a :: as) p = (leadsWith (a :: as) p || containsSub as p) from rfl]
    rw [Bool.or_eq_true, leadsWith_iff, ih]
    constructor
    · rintro (⟨r, hr⟩ | ⟨l, r, hr⟩)
      · exact ⟨[], r, by simpa using hr⟩
      · exact ⟨a :: l, r, by simp [hr]⟩
    · rintro ⟨l, r, hr⟩
      cases l with
      | nil =>
        exact Or.inl ⟨r, by simpa using hr⟩
      | cons c cs =>
        rw [List.cons_append, List.cons_append] at hr
        cases hr
        exact Or.inr ⟨cs, r, by simp⟩

theorem strContains_iff (s pat : String) :
    strContains s pat = true ↔ ∃ l r, s.data = l ++ pat.data ++ r :=
  containsSub_iff s.data pat.data

theorem is_time_period_term_iff (lower : String → String) (t : String) :
    is_time_period_term lower t = true ↔
      ∃ p ∈ time_terms, ∃ l r, (lower t).data = l ++ p.data ++ r := by
  unfold is_time_period_term
  rw [List.any_eq_true]
  constructor
  · rintro ⟨p, hp, hc⟩
    exact ⟨p, hp, (containsSub_iff _ _).mp hc⟩
  · rintro ⟨p, hp, h⟩
    exact ⟨p, hp, (containsSub_iff _ _).mpr h⟩

/-! ### Unfolding lemmas for the step functions -/

theorem lookupRanked_eq (ranked : List RankedDataset) (pid : Uuid) :
    lookupRanked ranked pid =
      (ranked.reverse.find? fun r => r.dataset.id == pid).map fun r => r.dataset :=
  rfl

theorem llmIdStep_none (parseId : String → Option Uuid)
    (ranked : List RankedDataset) (s : String) (hps : parseId s = none) :
    llmIdStep parseId ranked s = none := by
  unfold llmIdStep
  rw [hps]

theorem llmIdStep_some (parseId : String → Option Uuid)
    (ranked : List RankedDataset) (s : String) (pid : Uuid)
    (hps : parseId s = some pid) :
    llmIdStep parseId ranked s =
      (lookupRanked ranked pid).map fun d =>
        DatasetResult.mk d.id (some d.name) d.yml_content := by
  unfold llmIdStep
  rw [hps]

/-! ### Lemmas about first-occurrence deduplication -/

theorem mem_of_mem_dedupKeyedAux {α β : Type} [DecidableEq β] (key : α → β) :
    ∀ (l : List α) (seen : List β) (x : α),
      x ∈ dedupKeyedAux key l seen → x ∈ l := by
  intro l
  induction l with
  | nil =>
    intro seen x hx
    cases hx
  | cons a rest ih =>
    intro seen x hx
    simp only [dedupKeyedAux] at hx
    split at hx
    · exact List.mem_cons_of_mem a (ih _ _ hx)
    · rcases List.mem_cons.mp hx with rfl | hx'
      · exact List.mem_cons_self _ _
      · exact List.mem_cons_of_mem a (ih _ _ hx')

theorem key_not_mem_of_mem_dedupKeyedAux {α β : Type} [DecidableEq β]
    (key : α → β) :
    ∀ (l : List α) (seen : List β) (x : α),
      x ∈ dedupKeyedAux key l seen → key x ∉ seen := by
  intro l
  induction l with
  | nil =>
    intro seen x hx
    cases hx
  | cons a rest ih =>
    intro seen x hx
    simp only [dedupKeyedAux] at hx
    split at hx
    case isTrue h => exact ih _ _ hx
    case isFalse h =>
      rcases List.mem_cons.mp hx with rfl | hx'
      · exact h
      · intro hmem
        exact (ih _ _ hx') (List.mem_cons_of_mem _ hmem)

theorem pairwise_key_dedupKeyedAux {α β : Type} [DecidableEq β] (key : α → β) :
    ∀ (l : List α) (seen : List β),
      List.Pairwise (fun a b => key a ≠ key b) (dedupKeyedAux key l seen) := by
  intro l
  induction l with
  | nil =>
    intro seen
    exact List.Pairwise.nil
  | cons a rest ih =>
    intro seen
    simp only [dedupKeyedAux]
    split
    · exact ih _
    · refine List.Pairwise.cons ?_ (ih _)
      intro b hb hEq
      have hb' := key_not_mem_of_mem_dedupKeyedAux key rest _ b hb
      apply hb'
      rw [← hEq]
      exact List.mem_cons_self _ _

theorem find?_dedupKeyedAux {α β : Type} [DecidableEq β] (key : α → β) :
    ∀ (l : List α) (seen : List β) (x : α),
      x ∈ dedupKeyedAux key l seen →
        l.find? (fun y => decide (key y = key x)) = some x := by
  intro l
  induction l with
  | nil =>
    intro seen x hx
    cases hx
  | cons a rest ih =>
    intro seen x hx
    simp only [dedupKeyedAux] at hx
    split at hx
    case isTrue h =>
      have hxs := key_not_mem_of_mem_dedupKeyedAux key rest seen x hx
      have hne : ¬(key a = key x) := fun hEq => hxs (hEq ▸ h)
      rw [List.find?_cons_of_neg _ (by simpa using hne)]
      exact ih _ _ hx
    case isFalse h =>
      rcases List.mem_cons.mp hx with rfl | hx'
      · rw [List.find?_cons_of_pos _ (by simp)]
      · have hxs := key_not_mem_of_mem_dedupKeyedAux key rest _ x hx'
        have hne : ¬(key a = key x) := by
          intro hEq
          apply hxs
          rw [← hEq]
          exact List.mem_cons_self _ _
        rw [List.find?_cons_of_neg _ (by simpa using hne)]
        exact ih _ _ hx'

theorem exists_mem_dedupKeyedAux {α β : Type} [DecidableEq β] (key : α → β) :
    ∀ (l : List α) (seen : List β) (x : α), x ∈ l →
      key x ∈ seen ∨ ∃ d ∈ dedupKeyedAux key l seen, key d = key x := by
  intro l
  induction l with
  | nil =>
    intro seen x hx
    cases hx
  | cons a rest ih =>
    intro seen x hx
    simp only [dedupKeyedAux]
    rcases List.mem_cons.mp hx with rfl | hx'
    · split
      case isTrue h => exact Or.inl h
      case isFalse h => exact Or.inr ⟨x, List.mem_cons_self _ _, rfl⟩
    · split
      case isTrue h => exact ih seen x hx'
      case isFalse h =>
        rcases ih (key a :: seen) x hx' with hmem | ⟨d, hd, hkey⟩
        · rcases List.mem_cons.mp hmem with hEq | hmem'
          · exact Or.inr ⟨a, List.mem_cons_self _ _, hEq.symm⟩
          · exact Or.inl hmem'
        · exact Or.inr ⟨d, List.mem_cons_of_mem _ hd, hkey⟩

/-! ### Claim C1: deduplication of the merged results -/

/-- C1.  Each dataset identity appears at most once in the merged results
(source lines 687-719), regardless of how many specific-query or
exploratory-topic lists selected it; the entry kept for an identity is its
first occurrence (carrying that occurrence's name and document) in the
concatenation of the specific-query result lists followed by the
exploratory-topic result lists; and no selected identity is lost. -/
theorem C1_merge_dedup (s e : List (List DatasetResult)) :
    List.Pairwise (fun a b => a.id ≠ b.id) (combineResults s e) ∧
    (∀ d ∈ combineResults s e,
        (s.flatten ++ e.flatten).find? (fun y => decide (y.id = d.id)) = some d) ∧
    (∀ x ∈ s.flatten ++ e.flatten, ∃ d ∈ combineResults s e, d.id = x.id) := by
  refine ⟨pairwise_key_dedupKeyedAux _ _ _, ?_, ?_⟩
  · intro d hd
    exact find?_dedupKeyedAux _ _ _ _ hd
  · intro x hx
    rcases exists_mem_dedupKeyedAux (fun d : DatasetResult => d.id)
        (s.flatten ++ e.flatten) [] x hx with h | h
    · cases h
    · exact h

/-- Witness for C1: at the concrete input, the kept entry for identity 1 is
the first occurrence `(name "a", doc "docA")`. -/
theorem C1_merge_dedup_witness :
    (s0C1.flatten ++ e0C1.flatten).find?
        (fun y => decide (y.id = (DatasetResult.mk 1 (some "a") (some "docA")).id)) =
      some (DatasetResult.mk 1 (some "a") (some "docA")) :=
  (C1_merge_dedup s0C1 e0C1).2.1 (DatasetResult.mk 1 (some "a") (some "docA"))
    (by decide)

/-! ### Claim C2: the Term Sanitizer -/

/-- Counterexample to C2 as stated.  The claim reads "shorter than 2
characters", but Rust `str::len` counts UTF-8 bytes: the term `"é"` is one
character long (so by the claim it must be excluded) yet it is two bytes
long, matches no lexicon entry — Rust `to_lowercase` maps `"é"` to itself,
which `asciiLower` reproduces at this input — and is retained by the code. -/
theorem C2_counterexample :
    sanitizeTerms asciiLower ["é"] = ["é"] ∧ ("é" : String).length = 1 ∧
      rustLen "é" = 2 := by
  refine ⟨by decide, by decide, by decide⟩

/-- C2 (amended).  For the lowercasing function `lower` implemented by the
standard library (Rust `str::to_lowercase`, full Unicode case mapping): a
term is excluded by the Term Sanitizer if and only if its UTF-8 byte length
(Rust `str::len`) is less than 2 — which coincides with "shorter than 2
characters" on ASCII terms — or its lowercased text contains some entry of
the fixed time-period lexicon as a substring; every other term is retained,
and the empty input yields the empty output. -/
theorem C2_sanitizer (lower : String → String) (terms : List String) :
    sanitizeTerms lower [] = [] ∧
    ∀ t ∈ terms,
      (t ∈ sanitizeTerms lower terms ↔
        ¬(rustLen t < 2 ∨
            ∃ p ∈ time_terms, ∃ l r, (lower t).data = l ++ p.data ++ r)) := by
  refine ⟨rfl, ?_⟩
  intro t ht
  constructor
  · intro hmem
    have hcond := (List.mem_filter.mp hmem).2
    rw [Bool.and_eq_true] at hcond
    obtain ⟨h1, h2⟩ := hcond
    rw [decide_eq_true_eq] at h1
    rw [Bool.not_eq_true'] at h2
    rintro (hlt | hex)
    · omega
    · rw [← is_time_period_term_iff, h2] at hex
      cases hex
  · intro hn
    rw [not_or] at hn
    obtain ⟨h1, h2⟩ := hn
    refine List.mem_filter.mpr ⟨ht, ?_⟩
    rw [Bool.and_eq_true]
    refine ⟨by rw [decide_eq_true_eq]; omega, ?_⟩
    cases hb : is_time_period_term lower t with
    | false => rfl
    | true => exact absurd ((is_time_period_term_iff lower t).mp hb) h2

/-- Witness for C2: at the lowercasing function `asciiLower` (which agrees
with Rust `to_lowercase` on this ASCII input), the term `"Red Bull"` is
retained and satisfies the amended retention condition. -/
theorem C2_sanitizer_witness :
    "Red Bull" ∈ sanitizeTerms asciiLower ["Red Bull"] ↔
      ¬(rustLen "Red Bull" < 2 ∨
          ∃ p ∈ time_terms, ∃ l r,
            (asciiLower "Red Bull").data = l ++ p.data ++ r) :=
  (C2_sanitizer asciiLower ["Red Bull"]).2 "Red Bull" (by decide)

/-- Counterexample to C5 as stated.  The per-query result vectors are
collected from `buffer_unordered(10)` streams, which deliver in completion
order, not submission order.  With queries submitted as `["q1", "q2"]` and
completing as `["q2", "q1"]` (a legal completion order, being a permutation
of the submitted queries), the merged result is `[id 2, id 1]`, not the
input-order concatenation `[id 1, id 2]`. -/
theorem C5_counterexample :
    List.Perm ["q2", "q1"] ["q1", "q2"] ∧
    pipelineMerged fSpecC5 fExplC5 ["q2", "q1"] [] =
      [DatasetResult.mk 2 none none, DatasetResult.mk 1 none none] ∧
    (List.map fSpecC5 ["q1", "q2"]).flatten ++ (List.map fExplC5 []).flatten =
      [DatasetResult.mk 1 none none, DatasetResult.mk 2 none none] ∧
    pipelineMerged fSpecC5 fExplC5 ["q2", "q1"] [] ≠
      (List.map fSpecC5 ["q1", "q2"]).flatten ++ (List.map fExplC5 []).flatten :=
  ⟨List.Perm.swap "q1" "q2" [], by decide, by decide, by decide⟩

/-- C5 (amended).  The merged result is the first-occurrence deduplication of
the concatenation of all specific-query filtered lists followed by all
exploratory-topic filtered lists, where within each group the per-query
lists appear in task-completion order — a permutation of the original input
query/topic order — and the group order (specific before exploratory) is
preserved. -/
theorem C5_merge_order (fS fE : String → List DatasetResult)
    (specQ explQ arrS arrE : List String)
    (hS : List.Perm arrS specQ) (hE : List.Perm arrE explQ) :
    pipelineMerged fS fE arrS arrE =
      dedupKeyedAux (fun d => d.id)
        ((arrS.map fS).flatten ++ (arrE.map fE).flatten) [] ∧
    List.Perm (arrS.map fS) (specQ.map fS) ∧
    List.Perm (arrE.map fE) (explQ.map fE) :=
  ⟨rfl, hS.map fS, hE.map fE⟩

/-- Witness for C5 (amended) at the concrete completion order of the
counterexample. -/
theorem C5_merge_order_witness :
    pipelineMerged fSpecC5 fExplC5 ["q2", "q1"] [] =
      dedupKeyedAux (fun d => d.id)
        (((["q2", "q1"] : List String).map fSpecC5).flatten ++
          ((([] : List String)).map fExplC5).flatten) [] ∧
    List.Perm ((["q2", "q1"] : List String).map fSpecC5)
      ((["q1", "q2"] : List String).map fSpecC5) ∧
    List.Perm ((([] : List String)).map fExplC5)
      ((([] : List String)).map fExplC5) :=
  C5_merge_order fSpecC5 fExplC5 ["q1", "q2"] [] ["q2", "q1"] []
    (List.Perm.swap "q1" "q2" []) (List.Perm.refl [])

/-! ### Claim C6: LLM filter response handling -/

/-- C6.  Every entry of the filter output is a ranked candidate whose
identity the LLM returned (with the name and document of that ranked
dataset); an unparseable identity string is dropped without affecting the
rest of the response; a parsed identity absent from the ranked set is
dropped likewise; a provider-call or parse failure degrades to an empty
result for that query/topic; and the fan-out is per-task, so one task's
outcome never affects its siblings. -/
theorem C6_llm_filter (parseId : String → Option Uuid)
    (ranked : List RankedDataset) (ids : List String) :
    (∀ d ∈ processLLMIds parseId ranked ids,
        ∃ r ∈ ranked,
          d = DatasetResult.mk r.dataset.id (some r.dataset.name) r.dataset.yml_content ∧
          ∃ s ∈ ids, parseId s = some r.dataset.id) ∧
    (∀ pre post s, parseId s = none →
        processLLMIds parseId ranked (pre ++ s :: post) =
          processLLMIds parseId ranked (pre ++ post)) ∧
    (∀ pre post s pid, parseId s = some pid →
        (∀ r ∈ ranked, r.dataset.id ≠ pid) →
        processLLMIds parseId ranked (pre ++ s :: post) =
          processLLMIds parseId ranked (pre ++ post)) ∧
    (∀ e, filterQueryTask parseId ranked (Except.error e) = Except.ok []) ∧
    (∀ t₁ t₂ x, collectFilterStage parseId (t₁ ++ x :: t₂) =
        collectFilterStage parseId t₁ ++
          filterQueryTask parseId x.1 x.2 :: collectFilterStage parseId t₂) := by
  refine ⟨?_, ?_, ?_, ?_, ?_⟩
  · intro d hd
    rw [processLLMIds, List.mem_filterMap] at hd
    obtain ⟨s, hs, hfs⟩ := hd
    cases hps : parseId s with
    | none =>
      rw [llmIdStep_none parseId ranked s hps] at hfs
      cases hfs
    | some pid =>
      rw [llmIdStep_some parseId ranked s pid hps, lookupRanked_eq] at hfs
      cases hf : ranked.reverse.find? (fun r => r.dataset.id == pid) with
      | none =>
        rw [hf] at hfs
        cases hfs
      | some r =>
        rw [hf] at hfs
        simp only [Option.map_some', Option.some.injEq] at hfs
        have hr : r ∈ ranked := List.mem_reverse.mp (List.mem_of_find?_eq_some hf)
        have hid : r.dataset.id = pid := by
          have hpred := List.find?_some hf
          simpa using hpred
        refine ⟨r, hr, hfs.symm, s, hs, ?_⟩
        rw [hps, hid]
  · intro pre post s hps
    rw [processLLMIds, processLLMIds, List.filterMap_append, List.filterMap_append,
      List.filterMap_cons_none (llmIdStep_none parseId ranked s hps)]
  · intro pre post s pid hps hne
    have hl : lookupRanked ranked pid = none := by
      rw [lookupRanked_eq, List.find?_eq_none.mpr]
      · rfl
      · intro r hr
        simp only [beq_iff_eq]
        exact hne r (List.mem_reverse.mp hr)
    have hf : llmIdStep parseId ranked s = none := by
      rw [llmIdStep_some parseId ranked s pid hps, hl]
      rfl
    rw [processLLMIds, processLLMIds, List.filterMap_append, List.filterMap_append,
      List.filterMap_cons_none hf]
  · intro e
    by_cases hre : ranked.isEmpty = true
    · simp [filterQueryTask, hre]
    · simp [filterQueryTask, llm_filter_helper, hre]
  · intro t₁ t₂ x
    rw [collectFilterStage, collectFilterStage, collectFilterStage,
      List.map_append, List.map_cons]

/-- Witness for C6: with one ranked candidate, a failed provider call for
that query degrades to an empty, successful result. -/
theorem C6_llm_filter_witness :
    filterQueryTask (fun s => s.toNat?) [rdC6] (Except.error "provider failed") =
      Except.ok [] :=
  (C6_llm_filter (fun s => s.toNat?) [rdC6] []).2.2.2.1 "provider failed"

/-! ### Claim C7: rerank index validation and empty-input short-circuit -/

/-- C7.  With an empty candidate or document list the Ranker returns an
empty result whatever the provider would answer (it is never consulted); a
successful provider response never fails the call; and an out-of-range
index in the response is dropped without affecting the mapping of the other
indices. -/
theorem C7_rerank (ds : List PermissionedDataset) (docs : List String) :
    (∀ resp, docs = [] ∨ ds = [] → rerank_datasets ds docs resp = Except.ok []) ∧
    (∀ idxs, ∃ l, rerank_datasets ds docs (Except.ok idxs) = Except.ok l) ∧
    (∀ pre post i, ds.length ≤ i →
        rerank_datasets ds docs (Except.ok (pre ++ i :: post)) =
          rerank_datasets ds docs (Except.ok (pre ++ post))) := by
  refine ⟨?_, ?_, ?_⟩
  · rintro resp (rfl | rfl)
    · simp [rerank_datasets]
    · simp [rerank_datasets]
  · intro idxs
    rw [rerank_datasets]
    by_cases h : (docs.isEmpty || ds.isEmpty) = true
    · rw [if_pos h]
      exact ⟨[], rfl⟩
    · rw [if_neg h]
      exact ⟨_, rfl⟩
  · intro pre post i hi
    rw [rerank_datasets, rerank_datasets]
    by_cases h : (docs.isEmpty || ds.isEmpty) = true
    · rw [if_pos h, if_pos h]
    · rw [if_neg h, if_neg h]
      have hf : rerankStep ds i = none := by
        rw [rerankStep, List.getElem?_eq_none hi]
        rfl
      rw [List.filterMap_append, List.filterMap_append,
        List.filterMap_cons_none hf]

/-- Witness for C7: with an empty candidate list the Ranker ignores even a
non-empty provider response. -/
theorem C7_rerank_witness :
    rerank_datasets [] ["doc"] (Except.ok [0, 5]) = Except.ok [] :=
  (C7_rerank [] ["doc"]).1 (Except.ok [0, 5]) (Or.inr rfl)

/-! ### Claim C8: empty catalog -/

/-- C8.  When the dataset fetch succeeds with zero datasets, the invocation
returns a well-formed response (an `Ok` early return, not an error) whose
results list is empty, whose `data_source_id` is null, and whose message
indicates that no datasets are available. -/
theorem C8_empty_catalog (params : SearchDataCatalogParams) :
    executeHead params (Except.ok []) =
      some (SearchDataCatalogOutput.mk noDatasetsMessage params.specific_queries
        params.exploratory_topics [] none) ∧
    strContains noDatasetsMessage "No datasets available" = true :=
  ⟨rfl, by decide⟩

/-! ### List congruence helpers for the Enricher -/

theorem injectDim_eq_of_name_none (sds : List SearchableDimension)
    (vals : List FoundValueInfo) (db sch mn : String) (d : DimensionNode)
    (h : d.name = none) : injectDim sds vals db sch mn d = d := by
  unfold injectDim
  rw [h]

theorem injectDim_eq_of_not_searchable (sds : List SearchableDimension)
    (vals : List FoundValueInfo) (db sch mn : String) (d : DimensionNode)
    (dimName : String) (h : d.name = some dimName)
    (hs : (sds.any fun sd =>
        (sd.model_name == mn) && (sd.dimension_name == dimName)) = false) :
    injectDim sds vals db sch mn d = d := by
  unfold injectDim
  split
  · rfl
  · rename_i dimName1 heq
    rw [h] at heq
    injection heq with heq'
    subst heq'
    rw [hs]
    simp

theorem injectDim_eq_of_empty (sds : List SearchableDimension)
    (vals : List FoundValueInfo) (db sch mn : String) (d : DimensionNode)
    (dimName : String) (h : d.name = some dimName)
    (hrel : relevantFor vals db sch mn dimName = []) :
    injectDim sds vals db sch mn d = d := by
  unfold injectDim
  split
  · rfl
  · rename_i dimName1 heq
    rw [h] at heq
    injection heq with heq'
    subst heq'
    rw [hrel]
    simp

theorem injectDim_eq_of_inject (sds : List SearchableDimension)
    (vals : List FoundValueInfo) (db sch mn : String) (d : DimensionNode)
    (dimName : String) (h : d.name = some dimName)
    (hs : (sds.any fun sd =>
        (sd.model_name == mn) && (sd.dimension_name == dimName)) = true)
    (hne : relevantFor vals db sch mn dimName ≠ []) :
    injectDim sds vals db sch mn d =
      { d with relevant_values := some (relevantFor vals db sch mn dimName) } := by
  have hie : (relevantFor vals db sch mn dimName).isEmpty = false := by
    cases hl : relevantFor vals db sch mn dimName with
    | nil => exact absurd hl hne
    | cons a as => rfl
  unfold injectDim
  split
  · rename_i heq
    rw [h] at heq
    cases heq
  · rename_i dimName1 heq
    rw [h] at heq
    injection heq with heq'
    subst heq'
    rw [hs, hie]
    simp

theorem injectDim_spec (sds : List SearchableDimension)
    (vals : List FoundValueInfo) (db sch mn : String) (d : DimensionNode) :
    injectDim sds vals db sch mn d = d ∨
    ∃ dimName, d.name = some dimName ∧
      (sds.any fun sd =>
          (sd.model_name == mn) && (sd.dimension_name == dimName)) = true ∧
      relevantFor vals db sch mn dimName ≠ [] ∧
      injectDim sds vals db sch mn d =
        { d with relevant_values := some (relevantFor vals db sch mn dimName) } := by
  cases h : d.name with
  | none => exact Or.inl (injectDim_eq_of_name_none sds vals db sch mn d h)
  | some dimName =>
    cases hs : (sds.any fun sd =>
        (sd.model_name == mn) && (sd.dimension_name == dimName)) with
    | false =>
      exact Or.inl (injectDim_eq_of_not_searchable sds vals db sch mn d dimName h hs)
    | true =>
      cases hrel : relevantFor vals db sch mn dimName with
      | nil => exact Or.inl (injectDim_eq_of_empty sds vals db sch mn d dimName h hrel)
      | cons a as =>
        have hne : relevantFor vals db sch mn dimName ≠ [] := by
          rw [hrel]
          simp
        refine Or.inr ⟨dimName, rfl, hs, by rw [hrel]; simp, ?_⟩
        rw [injectDim_eq_of_inject sds vals db sch mn d dimName h hs hne, hrel, h]

theorem injectModel_eq_of_name_none (info : DbMap)
    (sds : List SearchableDimension) (vals : List FoundValueInfo)
    (m : ModelNode) (h : m.name = none) : injectModel info sds vals m = m := by
  unfold injectModel
  rw [h]

theorem injectModel_eq_of_no_scope (info : DbMap)
    (sds : List SearchableDimension) (vals : List FoundValueInfo)
    (m : ModelNode) (mn : String) (h1 : m.name = some mn)
    (h2 : findModelDbInfo info mn = none) : injectModel info sds vals m = m := by
  unfold injectModel
  split
  · rfl
  · rename_i mn1 heq
    rw [h1] at heq
    injection heq with heq'
    subst heq'
    rw [h2]

theorem injectModel_eq_of_no_dims (info : DbMap)
    (sds : List SearchableDimension) (vals : List FoundValueInfo)
    (m : ModelNode) (mn db sch : String) (h1 : m.name = some mn)
    (h2 : findModelDbInfo info mn = some (db, sch))
    (h3 : m.dimensions = none) : injectModel info sds vals m = m := by
  unfold injectModel
  split
  · rfl
  · rename_i mn1 heq
    rw [h1] at heq
    injection heq with heq'
    subst heq'
    rw [h2, h3]

theorem injectModel_eq_of_inject (info : DbMap)
    (sds : List SearchableDimension) (vals : List FoundValueInfo)
    (m : ModelNode) (mn db sch : String) (dims : List DimensionNode)
    (h1 : m.name = some mn) (h2 : findModelDbInfo info mn = some (db, sch))
    (h3 : m.dimensions = some dims) :
    injectModel info sds vals m =
      { m with dimensions := some (dims.map (injectDim sds vals db sch mn)) } := by
  unfold injectModel
  split
  · rename_i heq
    rw [h1] at heq
    cases heq
  · rename_i mn1 heq
    rw [h1] at heq
    injection heq with heq'
    subst heq'
    rw [h2, h3]

theorem injectModel_spec (info : DbMap) (sds : List SearchableDimension)
    (vals : List FoundValueInfo) (m : ModelNode) :
    injectModel info sds vals m = m ∨
    ∃ mn db sch dims, m.name = some mn ∧
      findModelDbInfo info mn = some (db, sch) ∧ m.dimensions = some dims ∧
      injectModel info sds vals m =
        { m with dimensions := some (dims.map (injectDim sds vals db sch mn)) } := by
  cases h1 : m.name with
  | none => exact Or.inl (injectModel_eq_of_name_none info sds vals m h1)
  | some mn =>
    cases h2 : findModelDbInfo info mn with
    | none => exact Or.inl (injectModel_eq_of_no_scope info sds vals m mn h1 h2)
    | some p =>
      obtain ⟨db, sch⟩ := p
      cases h3 : m.dimensions with
      | none => exact Or.inl (injectModel_eq_of_no_dims info sds vals m mn db sch h1 h2 h3)
      | some dims =>
        refine Or.inr ⟨mn, db, sch, dims, rfl, h2, rfl, ?_⟩
        rw [injectModel_eq_of_inject info sds vals m mn db sch dims h1 h2 h3, h1]

theorem inject_core_models (doc : CatalogDoc) (vals : List FoundValueInfo)
    (ms : List ModelNode) (hm : doc.models = some ms) :
    inject_core doc vals =
      CatalogDoc.mk (some (ms.map
        (injectModel (extract_database_info_from_yaml doc)
          (extract_searchable_dimensions doc) vals))) := by
  unfold inject_core
  rw [hm]

theorem nodup_relevantFor (vals : List FoundValueInfo) (db sch tbl col : String) :
    (relevantFor vals db sch tbl col).Nodup := by
  have hnd : (dedupKeyedAux (fun v => v) (matchingValues vals db sch tbl col) []).Nodup :=
    pairwise_key_dedupKeyedAux (fun v : String => v)
      (matchingValues vals db sch tbl col) []
  exact List.Nodup.sublist (List.take_sublist _ _) hnd

theorem length_relevantFor (vals : List FoundValueInfo)
    (db sch tbl col : String) : (relevantFor vals db sch tbl col).length ≤ 20 := by
  unfold relevantFor
  rw [List.length_take]
  exact min_le_left _ _

theorem mem_relevantFor (vals : List FoundValueInfo) (db sch tbl col : String)
    (v : String) (hv : v ∈ relevantFor vals db sch tbl col) :
    ∃ fv ∈ vals, fv.value = v ∧ fv.database_name = db ∧ fv.schema_name = sch ∧
      fv.table_name = tbl ∧ fv.column_name = col := by
  have h1 : v ∈ dedupKeyedAux (fun v => v) (matchingValues vals db sch tbl col) [] :=
    List.mem_of_mem_take hv
  have h2 : v ∈ matchingValues vals db sch tbl col :=
    mem_of_mem_dedupKeyedAux _ _ _ _ h1
  rw [matchingValues, List.mem_map] at h2
  obtain ⟨fv, hfv, hval⟩ := h2
  rw [List.mem_filter] at hfv
  obtain ⟨hmem, hcond⟩ := hfv
  simp only [Bool.and_eq_true, beq_iff_eq] at hcond
  exact ⟨fv, hmem, hval, hcond.1.1.1, hcond.1.1.2, hcond.1.2, hcond.2⟩

/-! ### Locating a dimension before and after injection -/

theorem docDim_unfold (doc : CatalogDoc) (i j : Nat) :
    docDim doc i j = (docModel doc i).bind fun m => (m.dimensions.getD []).get? j :=
  rfl

theorem get?_map_local {α β : Type} (f : α → β) :
    ∀ (l : List α) (i : Nat), (l.map f).get? i = (l.get? i).map f := by
  intro l
  induction l with
  | nil =>
    intro i
    cases i <;> rfl
  | cons a rest ih =>
    intro i
    cases i with
    | zero => rfl
    | succ n => exact ih n

theorem docDim_inject_core (doc : CatalogDoc) (vals : List FoundValueInfo)
    (i j : Nat) (d : DimensionNode) (hd : docDim doc i j = some d) :
    ∃ m, docModel doc i = some m ∧
      (docDim (inject_core doc vals) i j = some d ∨
       ∃ mn db sch, m.name = some mn ∧
         findModelDbInfo (extract_database_info_from_yaml doc) mn = some (db, sch) ∧
         docDim (inject_core doc vals) i j =
           some (injectDim (extract_searchable_dimensions doc) vals db sch mn d)) := by
  cases hmod : docModel doc i with
  | none =>
    rw [docDim_unfold, hmod] at hd
    cases hd
  | some m =>
    rw [docDim_unfold, hmod] at hd
    simp only [Option.some_bind] at hd
    cases hms : doc.models with
    | none =>
      unfold docModel at hmod
      rw [hms] at hmod
      simp at hmod
    | some ms =>
      have hgm : ms.get? i = some m := by
        unfold docModel at hmod
        rw [hms] at hmod
        simpa using hmod
      have hout : docDim (inject_core doc vals) i j =
          (((ms.map (injectModel (extract_database_info_from_yaml doc)
              (extract_searchable_dimensions doc) vals)).get? i).bind
            fun m' => (m'.dimensions.getD []).get? j) := by
        rw [docDim_unfold]
        unfold docModel
        rw [inject_core_models doc vals ms hms]
        rfl
      rw [get?_map_local, hgm, Option.map_some', Option.some_bind] at hout
      refine ⟨m, rfl, ?_⟩
      rcases injectModel_spec (extract_database_info_from_yaml doc)
          (extract_searchable_dimensions doc) vals m with
        hg | ⟨mn, db, sch, dims, h1, h2, h3, hg⟩
      · left
        rw [hout, hg, hd]
      · right
        refine ⟨mn, db, sch, h1, h2, ?_⟩
        rw [h3, Option.getD_some] at hd
        rw [hout, hg]
        show (dims.map (injectDim (extract_searchable_dimensions doc) vals db sch mn)).get? j =
          some (injectDim (extract_searchable_dimensions doc) vals db sch mn d)
        rw [get?_map_local, hd, Option.map_some']

/-- Counterexample to C3 as stated.  The injection guard matches dimensions
by `(model name, dimension name)` against the searchable list, not by node:
the second dimension of `exDocC3` is not marked searchable (its `searchable`
key is absent), yet because it shares the name `c` with the searchable first
dimension it also receives the injected value list. -/
theorem C3_counterexample :
    docDim exDocC3 0 1 = some (DimensionNode.mk (some "c") none none none) ∧
    docDim (inject_core exDocC3 exValsC3) 0 1 =
      some (DimensionNode.mk (some "c") none none (some ["v"])) :=
  ⟨by decide, by decide⟩

/-- C3 (amended).  Every dimension of the enriched document is either
untouched, or it is a dimension whose `(model name, dimension name)` pair is
declared searchable and whose `relevant_values` is overwritten with a
non-empty list that has no duplicate value strings, has at most 20 entries,
and contains only values of `FoundValue`s whose coordinate is the
`(database, schema)` pair recorded in the document for the model's name,
whose table is the model name, and whose column is the dimension name.
(When model names are unique in the document that pair is the dimension's
own database and schema; when dimension names are unique per model,
"pair declared searchable" is exactly "dimension marked searchable".)
A dimension with no matching values keeps its node unchanged. -/
theorem C3_injection (doc : CatalogDoc) (vals : List FoundValueInfo)
    (i j : Nat) (d d' : DimensionNode)
    (hd : docDim doc i j = some d)
    (hd' : docDim (inject_core doc vals) i j = some d') :
    d' = d ∨
    ∃ mn db sch dimName,
      docModelName doc i = some mn ∧
      findModelDbInfo (extract_database_info_from_yaml doc) mn = some (db, sch) ∧
      d.name = some dimName ∧
      ((extract_searchable_dimensions doc).any fun sd =>
          (sd.model_name == mn) && (sd.dimension_name == dimName)) = true ∧
      d' = { d with relevant_values := some (relevantFor vals db sch mn dimName) } ∧
      relevantFor vals db sch mn dimName ≠ [] ∧
      (relevantFor vals db sch mn dimName).Nodup ∧
      (relevantFor vals db sch mn dimName).length ≤ 20 ∧
      ∀ v ∈ relevantFor vals db sch mn dimName,
        ∃ fv ∈ vals, fv.value = v ∧ fv.database_name = db ∧ fv.schema_name = sch ∧
          fv.table_name = mn ∧ fv.column_name = dimName := by
  obtain ⟨m, hm, hcase⟩ := docDim_inject_core doc vals i j d hd
  rcases hcase with hout | ⟨mn, db, sch, hmn, hscope, hout⟩
  · rw [hout] at hd'
    exact Or.inl (Option.some.inj hd').symm
  · rw [hout] at hd'
    have hd'' : d' = injectDim (extract_searchable_dimensions doc) vals db sch mn d :=
      (Option.some.inj hd').symm
    rcases injectDim_spec (extract_searchable_dimensions doc) vals db sch mn d with
      h | ⟨dimName, hname, hsearch, hne, h⟩
    · exact Or.inl (by rw [hd'', h])
    · right
      refine ⟨mn, db, sch, dimName, ?_, hscope, hname, hsearch, by rw [hd'', h],
        hne, nodup_relevantFor vals db sch mn dimName,
        length_relevantFor vals db sch mn dimName,
        fun v hv => mem_relevantFor vals db sch mn dimName v hv⟩
      unfold docModelName
      rw [hm, Option.some_bind, hmn]

/-- Witness for C3 (amended): the searchable first dimension of `exDocC3`
has its `relevant_values` overwritten with `["v"]`. -/
theorem C3_injection_witness :
    DimensionNode.mk (some "c") none (some true) (some ["v"]) =
      DimensionNode.mk (some "c") none (some true) none ∨
    ∃ mn db sch dimName,
      docModelName exDocC3 0 = some mn ∧
      findModelDbInfo (extract_database_info_from_yaml exDocC3) mn = some (db, sch) ∧
      (DimensionNode.mk (some "c") none (some true) none).name = some dimName ∧
      ((extract_searchable_dimensions exDocC3).any fun sd =>
          (sd.model_name == mn) && (sd.dimension_name == dimName)) = true ∧
      DimensionNode.mk (some "c") none (some true) (some ["v"]) =
        { DimensionNode.mk (some "c") none (some true) none with
          relevant_values := some (relevantFor exValsC3 db sch mn dimName) } ∧
      relevantFor exValsC3 db sch mn dimName ≠ [] ∧
      (relevantFor exValsC3 db sch mn dimName).Nodup ∧
      (relevantFor exValsC3 db sch mn dimName).length ≤ 20 ∧
      ∀ v ∈ relevantFor exValsC3 db sch mn dimName,
        ∃ fv ∈ exValsC3, fv.value = v ∧ fv.database_name = db ∧ fv.schema_name = sch ∧
          fv.table_name = mn ∧ fv.column_name = dimName :=
  C3_injection exDocC3 exValsC3 0 0
    (DimensionNode.mk (some "c") none (some true) none)
    (DimensionNode.mk (some "c") none (some true) (some ["v"]))
    (by decide) (by decide)

/-! ### Claim C10: the frame of the injection -/

/-- C10.  For a dimension whose model scope resolves to `(db, sch)`: when no
`FoundValue` matches the dimension's selection coordinate, its existing
`relevant_values` entry (if any) is left in place; and in general a
dimension's `relevant_values` is either kept unchanged or overwritten with a
non-empty list — injection never removes or clears a previously injected
list. -/
theorem C10_no_match_frame (doc : CatalogDoc) (vals : List FoundValueInfo)
    (i j : Nat) (d d' : DimensionNode) (mn db sch col : String)
    (hd : docDim doc i j = some d)
    (hd' : docDim (inject_core doc vals) i j = some d')
    (hmn : docModelName doc i = some mn)
    (hscope : findModelDbInfo (extract_database_info_from_yaml doc) mn = some (db, sch))
    (hcol : d.name = some col) :
    (matchingValues vals db sch mn col = [] →
      d'.relevant_values = d.relevant_values) ∧
    (d'.relevant_values = d.relevant_values ∨
      ∃ L, L ≠ [] ∧ d'.relevant_values = some L) := by
  obtain ⟨m, hm, hcase⟩ := docDim_inject_core doc vals i j d hd
  have hmn' : m.name = some mn := by
    unfold docModelName at hmn
    rw [hm, Option.some_bind] at hmn
    exact hmn
  rcases hcase with hout | ⟨mn1, db1, sch1, hmn1, hscope1, hout⟩
  · rw [hout] at hd'
    have hdd : d' = d := (Option.some.inj hd').symm
    rw [hdd]
    exact ⟨fun _ => rfl, Or.inl rfl⟩
  · have heqm : mn1 = mn := by
      rw [hmn1] at hmn'
      exact Option.some.inj hmn'
    rw [heqm] at hscope1 hout
    rw [hscope1] at hscope
    have hpair := Option.some.inj hscope
    have hdb1 : db1 = db := congrArg Prod.fst hpair
    have hsch1 : sch1 = sch := congrArg Prod.snd hpair
    rw [hdb1, hsch1] at hout
    rw [hout] at hd'
    have hd'' : d' = injectDim (extract_searchable_dimensions doc) vals db sch mn d :=
      (Option.some.inj hd').symm
    rcases injectDim_spec (extract_searchable_dimensions doc) vals db sch mn d with
      h | ⟨dimName, hname, hsearch, hne, h⟩
    · rw [hd'', h]
      exact ⟨fun _ => rfl, Or.inl rfl⟩
    · have hdim : dimName = col := by
        rw [hcol] at hname
        exact (Option.some.inj hname).symm
      constructor
      · intro hempty
        exfalso
        apply hne
        unfold relevantFor
        rw [hdim, hempty]
        rfl
      · right
        refine ⟨relevantFor vals db sch mn dimName, hne, ?_⟩
        rw [hd'', h]

/-- Witness for C10 at `exDocC3`: the searchable dimension's
`relevant_values` is overwritten with a non-empty list. -/
theorem C10_no_match_frame_witness :
    (matchingValues exValsC3 "d" "s" "t" "c" = [] →
      (DimensionNode.mk (some "c") none (some true) (some ["v"])).relevant_values =
        (DimensionNode.mk (some "c") none (some true) none).relevant_values) ∧
    ((DimensionNode.mk (some "c") none (some true) (some ["v"])).relevant_values =
        (DimensionNode.mk (some "c") none (some true) none).relevant_values ∨
      ∃ L, L ≠ [] ∧
        (DimensionNode.mk (some "c") none (some true) (some ["v"])).relevant_values =
          some L) :=
  C10_no_match_frame exDocC3 exValsC3 0 0
    (DimensionNode.mk (some "c") none (some true) none)
    (DimensionNode.mk (some "c") none (some true) (some ["v"]))
    "t" "d" "s" "c" (by decide) (by decide) (by decide) (by decide) (by decide)

/-! ### Claim C9: behaviour of the Enricher on unparseable documents -/

/-- Counterexample to C9 as stated.  On a document that fails to parse,
`inject_prefound_values_into_yml` itself does not return the original text:
the initial parse propagates an error (the `?` on the first
`serde_yaml::from_str`).  It is the caller that catches the error and keeps
the original document. -/
theorem C9_counterexample :
    inject_prefound_values_into_yml (fun _ => "") (YmlSrc.mk "x" none) [] =
      Except.error "Failed to parse dataset YAML for injecting values" ∧
    inject_prefound_values_into_yml (fun _ => "") (YmlSrc.mk "x" none) [] ≠
      Except.ok "x" := by
  constructor
  · rfl
  · intro h
    exact Except.noConfusion h

/-- C9 (amended).  If parsing the document fails, the enricher call itself
fails with an error and the invoking pipeline catches it, retaining the
original document text unmodified; if the document parses but contains no
searchable dimensions, the enricher returns the original text unmodified. -/
theorem C9_parse_failure (serialize : CatalogDoc → String) (src : YmlSrc)
    (vals : List FoundValueInfo) :
    (src.parsed = none →
      inject_prefound_values_into_yml serialize src vals =
        Except.error "Failed to parse dataset YAML for injecting values" ∧
      enrichStep serialize src vals = src.text) ∧
    (∀ doc, src.parsed = some doc →
      (extract_searchable_dimensions doc).isEmpty = true →
      inject_prefound_values_into_yml serialize src vals = Except.ok src.text ∧
      enrichStep serialize src vals = src.text) := by
  constructor
  · intro hp
    have h1 : inject_prefound_values_into_yml serialize src vals =
        Except.error "Failed to parse dataset YAML for injecting values" := by
      unfold inject_prefound_values_into_yml
      rw [hp]
    refine ⟨h1, ?_⟩
    unfold enrichStep
    rw [h1]
  · intro doc hp hempty
    have h1 : inject_prefound_values_into_yml serialize src vals =
        Except.ok src.text := by
      unfold inject_prefound_values_into_yml
      split
      · rename_i heq
        rw [hp] at heq
        cases heq
      · rename_i doc1 heq
        rw [hp] at heq
        injection heq with heq'
        subst heq'
        rw [hempty]
        simp
    refine ⟨h1, ?_⟩
    unfold enrichStep
    rw [h1]

/-- Witness for C9 (amended): an unparseable document is left unmodified by
the enrichment step. -/
theorem C9_parse_failure_witness :
    inject_prefound_values_into_yml (fun _ => "") (YmlSrc.mk "y" none) [] =
      Except.error "Failed to parse dataset YAML for injecting values" ∧
    enrichStep (fun _ => "") (YmlSrc.mk "y" none) [] = "y" :=
  (C9_parse_failure (fun _ => "") (YmlSrc.mk "y" none) []).1 rfl

end SearchDataCatalog

